import Mathlib

/-
Verification of the eleven-audiobooks pipeline core against its design
specification.  The Python sources are shallowly embedded: each Python
function that a claim mentions is translated into an executable Lean
definition over explicit data (strings are lists of characters where
character-level behaviour matters), and the claims are settled as theorems
about those definitions.
-/

set_option maxHeartbeats 2000000
set_option maxRecDepth 10000

namespace ElevenAudiobooks

/- ------------------------------------------------------------------
   Pipeline state model, from src/eleven_audiobooks/pipeline_state.py
   ------------------------------------------------------------------ -/

/-- Processing stages for the pipeline (`ProcessingStage` in
`pipeline_state.py`). -/
inductive ProcessingStage where
  | initialized
  | pdf_processing
  | translation
  | optimization
  | audio_generation
  | completed
  | failed
  deriving DecidableEq, Repr

/-- The `State` dataclass of `pipeline_state.py`: current stage, chapter
counters, optional error message and the insertion-ordered artifact dict
(modelled as an association list). -/
structure State where
  stage : ProcessingStage := .initialized
  current_chapter : Int := 0
  total_chapters : Int := 0
  error : Option String := none
  artifacts : List (String × String) := []
  deriving DecidableEq, Repr

/-- The `PipelineState` manager of `pipeline_state.py`: the live `State`
plus the append-only `history` of deep-copied prior states. -/
structure PipelineState where
  state : State := {}
  history : List State := []
  deriving DecidableEq, Repr

/-- `PipelineState.__init__`: fresh state, empty history. -/
def PipelineState.init : PipelineState := {}

/-- Python dict assignment `d[k] = v`: overwrite in place if the key
exists, append otherwise (insertion order preserved). -/
def dictInsert (d : List (String × String)) (k v : String) :
    List (String × String) :=
  match d with
  | [] => [(k, v)]
  | (k', v') :: rest =>
      if k' = k then (k, v) :: rest else (k', v') :: dictInsert rest k v

/-- `PipelineState.update_state`: append a deep copy of the current state
to `history`, then apply each update that was provided; a non-`None`
`error` also forces `stage = FAILED`. -/
def update_state (ps : PipelineState) (stage : Option ProcessingStage)
    (current_chapter : Option Int) (total_chapters : Option Int)
    (error : Option String) : PipelineState :=
  let history := ps.history ++ [ps.state]
  let s := ps.state
  let s := match stage with
    | some v => { s with stage := v }
    | none => s
  let s := match current_chapter with
    | some v => { s with current_chapter := v }
    | none => s
  let s := match total_chapters with
    | some v => { s with total_chapters := v }
    | none => s
  let s := match error with
    | some e => { s with error := some e, stage := .failed }
    | none => s
  { state := s, history := history }

/-- `PipelineState.add_artifact`: `self.state.artifacts[name] = path`. -/
def add_artifact (ps : PipelineState) (name path : String) : PipelineState :=
  { ps with
    state := { ps.state with
      artifacts := dictInsert ps.state.artifacts name path } }

/-- `PipelineState.can_proceed`: true unless the stage is FAILED. -/
def can_proceed (ps : PipelineState) : Bool :=
  ps.state.stage != .failed

/-- `PipelineState.get_progress` with exact rational arithmetic in place
of Python floats: `0.0` when `total_chapters == 0`, otherwise
`current_chapter / total_chapters * 100`. -/
def get_progress (ps : PipelineState) : ℚ :=
  if ps.state.total_chapters = 0 then 0
  else (ps.state.current_chapter : ℚ) / (ps.state.total_chapters : ℚ) * 100

/-- The `for state in reversed(self.history)` loop body of
`get_last_successful_stage`: first stage in the given list that is not
FAILED, `INITIALIZED` if none. -/
def lastSuccessfulAux : List State → ProcessingStage
  | [] => .initialized
  | s :: rest =>
      if s.stage ≠ .failed then s.stage else lastSuccessfulAux rest

/-- `PipelineState.get_last_successful_stage`: `INITIALIZED` on empty
history, otherwise scan `history` from most recent to oldest. -/
def get_last_successful_stage (ps : PipelineState) : ProcessingStage :=
  if ps.history = [] then .initialized
  else lastSuccessfulAux ps.history.reverse

/-- The pipeline states reachable from the initial state by any finite
sequence of `update_state` and `add_artifact` calls. -/
inductive Reachable : PipelineState → Prop where
  | init : Reachable PipelineState.init
  | update (ps : PipelineState) (h : Reachable ps)
      (stage : Option ProcessingStage) (cc tc : Option Int)
      (err : Option String) :
      Reachable (update_state ps stage cc tc err)
  | artifact (ps : PipelineState) (h : Reachable ps) (name path : String) :
      Reachable (add_artifact ps name path)

/- ----------------------------- C6 ----------------------------- -/

/-- Reachable state violating the claimed invariant: set an error (stage
is forced to FAILED), then update the stage without touching the error. -/
def c6BadState : PipelineState :=
  update_state (update_state PipelineState.init none none none (some "x"))
    (some .completed) none none none

/-- C6 counterexample: the invariant `error ≠ none → stage = FAILED` does
not hold for every reachable state.  After `update_state(error="x")`
followed by `update_state(stage=COMPLETED)`, the error is still `"x"`
(the error field is never cleared) but the stage is COMPLETED. -/
theorem c6_invariant_counterexample :
    Reachable c6BadState ∧ c6BadState.state.error = some "x" ∧
      c6BadState.state.stage = .completed ∧
      c6BadState.state.stage ≠ .failed := by
  refine ⟨?_, rfl, rfl, by decide⟩
  exact Reachable.update _
    (Reachable.update _ Reachable.init none none none (some "x"))
    (some .completed) none none none

/-- C6 amended: immediately after any `update_state` call whose `error`
argument is not `None`, the stage is FAILED (and the error is recorded);
the invariant is not preserved by later error-free updates that set a
stage, because the error field is sticky. -/
theorem c6_update_with_error_forces_failed (ps : PipelineState)
    (stage : Option ProcessingStage) (cc tc : Option Int) (e : String) :
    (update_state ps stage cc tc (some e)).state.stage = .failed ∧
      (update_state ps stage cc tc (some e)).state.error = some e := by
  cases stage <;> cases cc <;> cases tc <;> exact ⟨rfl, rfl⟩

/- ----------------------------- C7 ----------------------------- -/

/-- The scenario run of claim C7: stages INITIALIZED, PDF_PROCESSING,
TRANSLATION, OPTIMIZATION, then `update_state(stage=AUDIO_GENERATION,
error="x")`. -/
def c7Run : PipelineState :=
  update_state (update_state (update_state (update_state (update_state
    PipelineState.init
    (some .initialized) none none none)
    (some .pdf_processing) none none none)
    (some .translation) none none none)
    (some .optimization) none none none)
    (some .audio_generation) none none (some "x")

theorem lastSuccessfulAux_eq_find? (l : List State) :
    lastSuccessfulAux l =
      ((l.find? (fun s => s.stage != .failed)).map State.stage).getD
        .initialized := by
  induction l with
  | nil => rfl
  | cons s rest ih =>
      by_cases h : s.stage = .failed
      · simp [lastSuccessfulAux, List.find?, h, ih]
      · have hb : (s.stage != ProcessingStage.failed) = true := by
          simpa using h
        simp [lastSuccessfulAux, List.find?, h, hb]

/-- C7: `get_last_successful_stage` returns the stage of the most recent
history entry whose stage is not FAILED (a right-to-left `find?` over
`history`), returns INITIALIZED when the history is empty or consists
only of FAILED entries, and on the scenario run
INITIALIZED → PDF_PROCESSING → TRANSLATION → OPTIMIZATION followed by
`update_state(stage=AUDIO_GENERATION, error="x")` the current stage is
FAILED while `get_last_successful_stage()` is OPTIMIZATION. -/
theorem get_last_successful_stage_spec :
    (c7Run.state.stage = .failed ∧
      get_last_successful_stage c7Run = .optimization) ∧
    (∀ ps : PipelineState,
      get_last_successful_stage ps =
        ((ps.history.reverse.find? (fun s => s.stage != .failed)).map
          State.stage).getD .initialized) ∧
    (∀ ps : PipelineState, ps.history = [] →
      get_last_successful_stage ps = .initialized) ∧
    (∀ ps : PipelineState, (∀ s ∈ ps.history, s.stage = .failed) →
      get_last_successful_stage ps = .initialized) := by
  have hchar : ∀ ps : PipelineState,
      get_last_successful_stage ps =
        ((ps.history.reverse.find? (fun s => s.stage != .failed)).map
          State.stage).getD .initialized := by
    intro ps
    by_cases h : ps.history = []
    · simp [get_last_successful_stage, h]
    · simp only [get_last_successful_stage, h, if_neg]
      exact lastSuccessfulAux_eq_find? _
  refine ⟨⟨rfl, by decide⟩, hchar, ?_, ?_⟩
  · intro ps h
    simp [get_last_successful_stage, h]
  · intro ps h
    rw [hchar ps]
    have hnone : ps.history.reverse.find? (fun s => s.stage != .failed)
        = none := by
      rw [List.find?_eq_none]
      intro s hs
      simp only [bne_iff_ne, ne_eq, Decidable.not_not]
      exact h s (List.mem_reverse.mp hs)
    simp [hnone]

/-- Witness for C7 at concrete inputs: the empty-history and all-FAILED
hypotheses are discharged on concrete pipeline states. -/
theorem get_last_successful_stage_spec_witness :
    get_last_successful_stage PipelineState.init = .initialized ∧
    get_last_successful_stage
      { state := {}, history := [{ stage := .failed }] } = .initialized ∧
    get_last_successful_stage c7Run = .optimization := by
  refine ⟨get_last_successful_stage_spec.2.2.1 PipelineState.init rfl,
    get_last_successful_stage_spec.2.2.2
      { state := {}, history := [{ stage := .failed }] } ?_,
    get_last_successful_stage_spec.1.2⟩
  intro s hs
  simp only [List.mem_singleton] at hs
  subst hs
  rfl

/- ----------------------------- C8 ----------------------------- -/

/-- C8: `get_progress` is `current_chapter / total_chapters * 100`, is
`0.0` whenever `total_chapters = 0` (no division-by-zero error), and is
`50.0` at `current_chapter = 5`, `total_chapters = 10`. -/
theorem get_progress_spec :
    (∀ ps : PipelineState, ps.state.total_chapters = 0 →
      get_progress ps = 0) ∧
    (∀ ps : PipelineState, ps.state.total_chapters ≠ 0 →
      get_progress ps =
        (ps.state.current_chapter : ℚ) / (ps.state.total_chapters : ℚ)
          * 100) ∧
    get_progress
      { state := { current_chapter := 5, total_chapters := 10 } } = 50 := by
  refine ⟨?_, ?_, ?_⟩
  · intro ps h
    simp [get_progress, h]
  · intro ps h
    simp [get_progress, h]
  · norm_num [get_progress]

/-- Witness for C8: both hypotheses discharged at concrete states. -/
theorem get_progress_spec_witness :
    get_progress { state := { total_chapters := 0 } } = 0 ∧
    get_progress
      { state := { current_chapter := 5, total_chapters := 10 } } = 50 := by
  refine ⟨get_progress_spec.1 { state := { total_chapters := 0 } } rfl, ?_⟩
  have h := get_progress_spec.2.1
    { state := { current_chapter := 5, total_chapters := 10 } } (by decide)
  rw [h]
  norm_num

/- ------------------------------------------------------------------
   Character-list string model and Python string primitives
   ------------------------------------------------------------------ -/

/-- Texts are modelled as lists of characters so that the character-level
splitting logic can be stated and executed exactly. -/
abbrev Str := List Char

/-- Python whitespace test used by `str.strip()` and `str.split()`. -/
def isWS (c : Char) : Bool := c.isWhitespace

/-- Python `str.strip()`: drop leading and trailing whitespace. -/
def pyStrip (s : Str) : Str :=
  ((s.dropWhile isWS).reverse.dropWhile isWS).reverse

/-- Python `text.split("\n\n")`: split at each non-overlapping
occurrence of two consecutive newline characters, scanning left to
right (the accumulator holds the current piece reversed). -/
def splitOn2NL : Str → Str → List Str
  | [], acc => [acc.reverse]
  | [c], acc => [(c :: acc).reverse]
  | c1 :: c2 :: rest, acc =>
      if c1 = '\n' ∧ c2 = '\n' then
        acc.reverse :: splitOn2NL rest []
      else
        splitOn2NL (c2 :: rest) (c1 :: acc)

/-- Python `str.split()` with no argument: maximal runs of
non-whitespace characters, empty pieces discarded (the accumulator
holds the current word reversed). -/
def pySplitWS : Str → Str → List Str
  | [], acc => if acc ≠ [] then [acc.reverse] else []
  | c :: rest, acc =>
      if isWS c then
        if acc ≠ [] then acc.reverse :: pySplitWS rest []
        else pySplitWS rest []
      else pySplitWS rest (c :: acc)

/-- The non-whitespace content of a text: what claim C2's "modulo
whitespace normalization" preserves. -/
def nws (s : Str) : Str := s.filter (fun c => !isWS c)

/- ------------------------------------------------------------------
   Retry loops, from src/eleven_audiobooks/batch_text_optimizer.py
   (_optimize_chunk_with_rate_limit) and
   src/eleven_audiobooks/audio_generator.py (_generate_audio_with_retry)
   ------------------------------------------------------------------ -/

/-- Observable behaviour of one run of a retry loop: the final outcome
(`error none` would be Python's `raise None` when the loop body never
ran), the sleeps performed (in seconds, in order), and the number of
calls made to the external service. -/
structure RetryRun (ε α : Type) where
  result : Except (Option ε) α
  sleeps : List Nat
  numCalls : Nat
  deriving Repr

/-- The shared shape of both retry loops:
`while retries < MAX_RETRIES: try: return call() except: retries += 1;
sleep(delayOf retries)`, then `raise last_error`.  `outcome k` is the
result of the k-th call (0-based), `fuel` the remaining allowed
iterations. -/
def retryLoop {ε α : Type} (delayOf : Nat → Nat)
    (outcome : Nat → Except ε α) :
    Nat → Nat → Option ε → RetryRun ε α
  | 0, _, lastError => { result := .error lastError, sleeps := [], numCalls := 0 }
  | fuel + 1, k, _ =>
      match outcome k with
      | .ok a => { result := .ok a, sleeps := [], numCalls := 1 }
      | .error e =>
          let rest := retryLoop delayOf outcome fuel (k + 1) (some e)
          { result := rest.result,
            sleeps := delayOf (k + 1) :: rest.sleeps,
            numCalls := rest.numCalls + 1 }

namespace BatchTextOptimizer

/-- `BatchTextOptimizer.MAX_RETRIES`. -/
def MAX_RETRIES : Nat := 3

/-- `BatchTextOptimizer.RETRY_DELAY` (seconds). -/
def RETRY_DELAY : Nat := 2

/-- The retry loop of `_optimize_chunk_with_rate_limit`:
`wait_time = RETRY_DELAY * (2 ** (retries - 1))` (exponential
backoff). -/
def optimizerRetry {α : Type} (outcome : Nat → Except String α) :
    RetryRun String α :=
  retryLoop (fun retries => RETRY_DELAY * 2 ^ (retries - 1)) outcome
    MAX_RETRIES 0 none

end BatchTextOptimizer

namespace AudioGenerator

/-- `AudioGenerator.MAX_RETRIES`. -/
def MAX_RETRIES : Nat := 3

/-- `AudioGenerator.RETRY_DELAY` (seconds). -/
def RETRY_DELAY : Nat := 2

/-- The retry loop of `_generate_audio_with_retry`:
`await asyncio.sleep(self.RETRY_DELAY * retries)`. -/
def audioRetry {α : Type} (outcome : Nat → Except String α) :
    RetryRun String α :=
  retryLoop (fun retries => RETRY_DELAY * retries) outcome MAX_RETRIES 0 none

end AudioGenerator

/- ----------------------------- C3 ----------------------------- -/

/-- C3: on a task that keeps failing, both retry loops make exactly
`MAX_RETRIES = 3` calls, the delay slept before retry number `attempt`
(the attempt-th failed call is followed by the sleep preceding retry
`attempt`, attempts counted from 1) equals `RETRY_DELAY * 2^(attempt-1)`
for both loops — `[2, 4]` before the two retries that happen — and after
exhausting the retries the loop raises the last error rather than a
fresh one.  (The audio loop computes `RETRY_DELAY * retries`, which
coincides with the exponential schedule for the two retries its
`MAX_RETRIES = 3` allows; each loop also performs one final sleep that
precedes no retry.) -/
theorem retry_policy_spec {α : Type} (out : Nat → Except String α)
    (h : ∀ k, ∃ e, out k = .error e) :
    (BatchTextOptimizer.optimizerRetry out).numCalls = 3 ∧
    (AudioGenerator.audioRetry out).numCalls = 3 ∧
    (BatchTextOptimizer.optimizerRetry out).sleeps = [2, 4, 8] ∧
    (AudioGenerator.audioRetry out).sleeps = [2, 4, 6] ∧
    ((BatchTextOptimizer.optimizerRetry out).sleeps.take 2 =
      [BatchTextOptimizer.RETRY_DELAY * 2 ^ 0,
       BatchTextOptimizer.RETRY_DELAY * 2 ^ 1] ∧
     (AudioGenerator.audioRetry out).sleeps.take 2 =
      [AudioGenerator.RETRY_DELAY * 2 ^ 0,
       AudioGenerator.RETRY_DELAY * 2 ^ 1]) ∧
    (∃ e, out 2 = .error e ∧
      (BatchTextOptimizer.optimizerRetry out).result = .error (some e) ∧
      (AudioGenerator.audioRetry out).result = .error (some e)) := by
  obtain ⟨e0, h0⟩ := h 0
  obtain ⟨e1, h1⟩ := h 1
  obtain ⟨e2, h2⟩ := h 2
  refine ⟨?_, ?_, ?_, ?_, ⟨?_, ?_⟩, e2, h2, ?_, ?_⟩ <;>
    simp [BatchTextOptimizer.optimizerRetry, AudioGenerator.audioRetry,
      BatchTextOptimizer.MAX_RETRIES, AudioGenerator.MAX_RETRIES,
      BatchTextOptimizer.RETRY_DELAY, AudioGenerator.RETRY_DELAY,
      retryLoop, h0, h1, h2]

/-- Witness for C3: the always-failing oracle. -/
theorem retry_policy_spec_witness :
    (BatchTextOptimizer.optimizerRetry
      (fun _ => (.error "boom" : Except String Unit))).numCalls = 3 ∧
    (BatchTextOptimizer.optimizerRetry
      (fun _ => (.error "boom" : Except String Unit))).sleeps = [2, 4, 8] ∧
    (AudioGenerator.audioRetry
      (fun _ => (.error "boom" : Except String Unit))).sleeps = [2, 4, 6] := by
  have h := retry_policy_spec (fun _ => (.error "boom" : Except String Unit))
    (fun _ => ⟨"boom", rfl⟩)
  exact ⟨h.1, h.2.2.1, h.2.2.2.1⟩

/- ------------------------------------------------------------------
   Text splitting, from src/eleven_audiobooks/batch_text_optimizer.py
   ------------------------------------------------------------------ -/

/-- True when the first character of the (reversed) accumulated piece is
a sentence-ending punctuation mark: the regex lookbehind `(?<=[.!?])`. -/
def headIsStop : Str → Bool
  | p :: _ => p = '.' || p = '!' || p = '?'
  | [] => false

/-- True when the last character of a piece is `.`, `!` or `?`: Python
`sentence[-1] in '.!?'`. -/
def endsWithStop (s : Str) : Bool :=
  match s.getLast? with
  | some c => c = '.' || c = '!' || c = '?'
  | none => false

namespace BatchTextOptimizer

/-- `re.split(r'(?<=[.!?])\s+(?=[A-Z])', text)` as a character scan: a
separator is a maximal whitespace run whose preceding character is `.`,
`!` or `?` and whose following character is an ASCII capital letter.
`piece` is the current piece reversed; `run` is a pending whitespace run
(reversed) that started right after a sentence-ending mark. -/
def splitSentRe : Str → Str → Str → List Str
  | [], piece, run => [(run ++ piece).reverse]
  | c :: rest, piece, run =>
      if run = [] then
        if isWS c && headIsStop piece then
          splitSentRe rest piece [c]
        else
          splitSentRe rest (c :: piece) []
      else
        if isWS c then
          splitSentRe rest piece (c :: run)
        else if 'A' ≤ c ∧ c ≤ 'Z' then
          piece.reverse :: splitSentRe rest [c] []
        else
          splitSentRe rest (c :: (run ++ piece)) []

/-- `BatchTextOptimizer._split_into_sentences`: regex split, strip each
piece, append a terminating `'.'` to any non-empty sentence that does
not already end in `.`, `!` or `?`, and drop empty pieces. -/
def split_into_sentences (text : Str) : List Str :=
  (splitSentRe text [] []).foldr
    (fun sentence acc =>
      let s := pyStrip sentence
      let s := if s ≠ [] ∧ endsWithStop s = false then s ++ ['.'] else s
      if s ≠ [] then s :: acc else acc) []

/-- The sentence-packing inner loop of `_split_text` (`temp_chunk` /
`temp_length`): when adding the sentence would push `temp_length` over
the literal budget 4000 and the accumulator is non-empty, flush it as a
`"\n"`-joined chunk; then append the sentence unconditionally, counting
`len(sentence) + 1` for the newline. -/
def packSentences : List Str → List Str → List Str → Nat →
    List Str × List Str × Nat
  | [], chunks, temp, tl => (chunks, temp, tl)
  | s :: rest, chunks, temp, tl =>
      let st :=
        if tl + s.length > 4000 ∧ temp ≠ [] then
          (chunks ++ [List.intercalate ['\n'] temp], ([] : List Str), 0)
        else (chunks, temp, tl)
      packSentences rest st.1 (st.2.1 ++ [s]) (st.2.2 + s.length + 1)

/-- The paragraph loop of `BatchTextOptimizer._split_text`: pack
paragraphs greedily under the literal budget 4000 (counting
`len(para) + 2` for the `"\n\n"` separator); an over-long paragraph is
split into sentences and those are packed by `packSentences`. -/
def splitTextLoop : List Str → List Str → List Str → Nat → List Str
  | [], chunks, cur, _ =>
      if cur ≠ [] then chunks ++ [List.intercalate ['\n', '\n'] cur]
      else chunks
  | para :: rest, chunks, cur, clen =>
      if clen + para.length > 4000 then
        let chunks :=
          if cur ≠ [] then chunks ++ [List.intercalate ['\n', '\n'] cur]
          else chunks
        if para.length > 4000 then
          let st := packSentences (split_into_sentences para) chunks [] 0
          let chunks :=
            if st.2.1 ≠ [] then st.1 ++ [List.intercalate ['\n'] st.2.1]
            else st.1
          splitTextLoop rest chunks [] 0
        else
          splitTextLoop rest (chunks ++ [para]) [] 0
      else
        splitTextLoop rest chunks (cur ++ [para]) (clen + para.length + 2)

/-- `BatchTextOptimizer._split_text`: strip the blank-line-delimited
paragraphs, discard empty ones, then pack. -/
def split_text (text : Str) : List Str :=
  let paragraphs := ((splitOn2NL text []).map pyStrip).filter (· ≠ [])
  splitTextLoop paragraphs [] [] 0

/-- `BatchTextOptimizer.optimize`: split the text into chunks, optimize
every chunk (the per-chunk outcome of `_optimize_chunk_with_rate_limit`
is the oracle `chunkResult`; `asyncio.gather` propagates a chunk
failure), and join the optimized chunks with a blank line. -/
def optimize (chunkResult : Str → Except String Str) (text : Str) :
    Except String Str := do
  let chunks := split_text text
  let optimized ← chunks.mapM chunkResult
  return List.intercalate ['\n', '\n'] optimized

end BatchTextOptimizer

namespace StorageEngine

/-- The per-chapter loop of `StorageEngine._validate_chapters`: a
chapter whose content strips to nothing raises a ValueError.  (The
`isinstance` checks of the source are statically true in this typed
embedding.) -/
def validateEach : List (Int × Str) → Except String Unit
  | [] => .ok ()
  | (num, content) :: rest =>
      if pyStrip content = [] then
        .error ("Chapter " ++ toString num ++ " content is empty")
      else validateEach rest

/-- `StorageEngine._validate_chapters`: ValueError when no chapters are
provided or some chapter content is empty/whitespace-only. -/
def validate_chapters (chapters : List (Int × Str)) : Except String Unit :=
  if chapters = [] then .error "No chapters provided"
  else validateEach chapters

end StorageEngine

/- ----------------------------- C9 ----------------------------- -/

/-- C9 counterexample: empty input does not fail with a validation
error.  `optimize("")` splits the empty text into zero chunks and
returns an empty optimized text successfully, even under an oracle that
would reject every chunk; and a chunk call that keeps failing with a
validation error (e.g. a malformed response) is retried — the loop makes
all `MAX_RETRIES = 3` calls instead of failing on the first. -/
theorem c9_validation_counterexample :
    BatchTextOptimizer.optimize (fun _ => .error "validation error") [] =
      .ok [] ∧
    BatchTextOptimizer.split_text [] = [] ∧
    (BatchTextOptimizer.optimizerRetry
      (fun _ => (.error "malformed response" : Except String Unit))).numCalls
      = 3 := by
  exact ⟨rfl, rfl, rfl⟩

theorem validateEach_mem_empty (chapters : List (Int × Str)) (num : Int)
    (content : Str) (hmem : (num, content) ∈ chapters)
    (hempty : pyStrip content = []) :
    ∃ msg, StorageEngine.validateEach chapters = .error msg := by
  induction chapters with
  | nil => cases hmem
  | cons head rest ih =>
      obtain ⟨n, c⟩ := head
      by_cases hc : pyStrip c = []
      · exact ⟨"Chapter " ++ toString n ++ " content is empty",
          by simp [StorageEngine.validateEach, hc]⟩
      · rcases List.mem_cons.mp hmem with h | h
        · rw [Prod.mk.injEq] at h
          exact absurd (h.2 ▸ hempty) hc
        · obtain ⟨msg, hmsg⟩ := ih h
          exact ⟨msg, by simp [StorageEngine.validateEach, hc, hmsg]⟩

/-- C9 amended: the optimizer itself performs no input validation —
empty input produces an empty optimized text with no error and no
external call, and a chunk call that fails (for any reason, validation
errors included) is retried up to `MAX_RETRIES` times.  Validation
happens only in the storage layer: `_validate_chapters` fails
immediately on an empty chapter dict or on a chapter whose content is
empty after stripping, and no storage call is retried. -/
theorem c9_validation_amended :
    (∀ f : Str → Except String Str,
      BatchTextOptimizer.optimize f [] = .ok []) ∧
    (∀ e : String,
      (BatchTextOptimizer.optimizerRetry
        (fun _ => (.error e : Except String Unit))).numCalls =
        BatchTextOptimizer.MAX_RETRIES) ∧
    StorageEngine.validate_chapters [] = .error "No chapters provided" ∧
    (∀ (chapters : List (Int × Str)) (num : Int) (content : Str),
      (num, content) ∈ chapters → pyStrip content = [] →
      ∃ msg, StorageEngine.validate_chapters chapters = .error msg) := by
  refine ⟨fun f => rfl, fun e => rfl, rfl, ?_⟩
  intro chapters num content hmem hempty
  obtain ⟨msg, hmsg⟩ := validateEach_mem_empty chapters num content hmem hempty
  refine ⟨msg, ?_⟩
  have hne : chapters ≠ [] := by
    intro h; subst h; cases hmem
  simp [StorageEngine.validate_chapters, hne, hmsg]

/-- Witness for C9 at concrete inputs: a one-chapter dict whose content
is a single blank is rejected by the storage validator. -/
theorem c9_validation_amended_witness :
    BatchTextOptimizer.optimize (fun _ => .error "nope") [] = .ok [] ∧
    (∃ msg, StorageEngine.validate_chapters [((1 : Int), [' '])] =
      .error msg) := by
  refine ⟨c9_validation_amended.1 _,
    c9_validation_amended.2.2.2 [((1 : Int), [' '])] 1 [' '] ?_ ?_⟩
  · exact List.mem_singleton.mpr rfl
  · rfl

/- ----------------------------- C2 ----------------------------- -/

/-- A single 4001-character paragraph with no sentence-ending
punctuation: it exceeds the 4000 budget, so `_split_text` sends it
through `_split_into_sentences`. -/
def c2Text : Str := List.replicate 4001 'a'

theorem splitOn2NL_no_newline (s : Str) (h : ∀ c ∈ s, c ≠ '\n') :
    ∀ acc, splitOn2NL s acc = [acc.reverse ++ s] := by
  induction s with
  | nil => intro acc; simp [splitOn2NL]
  | cons c rest ih =>
      intro acc
      have hc : c ≠ '\n' := h c (List.mem_cons_self c rest)
      cases rest with
      | nil => simp [splitOn2NL]
      | cons c2 rest2 =>
          have hrec := ih (fun x hx => h x (List.mem_cons_of_mem c hx))
            (c :: acc)
          simp only [splitOn2NL]
          rw [if_neg (fun hand => hc hand.1), hrec]
          simp

theorem pyStrip_of_noWS (s : Str) (h : ∀ c ∈ s, isWS c = false) :
    pyStrip s = s := by
  have h1 : s.dropWhile isWS = s := by
    cases s with
    | nil => rfl
    | cons c rest =>
        rw [List.dropWhile_cons, if_neg]
        simp [h c (List.mem_cons_self c rest)]
  have h2 : s.reverse.dropWhile isWS = s.reverse := by
    cases hs : s.reverse with
    | nil => rfl
    | cons c rest =>
        rw [List.dropWhile_cons, if_neg]
        have : c ∈ s := by
          rw [← List.mem_reverse, hs]; exact List.mem_cons_self c rest
        simp [h c this]
  rw [pyStrip, h1, h2, List.reverse_reverse]

theorem splitSentRe_noWS (s : Str) (h : ∀ c ∈ s, isWS c = false) :
    ∀ piece, BatchTextOptimizer.splitSentRe s piece [] =
      [piece.reverse ++ s] := by
  induction s with
  | nil => intro piece; simp [BatchTextOptimizer.splitSentRe]
  | cons c rest ih =>
      intro piece
      have hc : isWS c = false := h c (List.mem_cons_self c rest)
      have hrec := ih (fun x hx => h x (List.mem_cons_of_mem c hx))
        (c :: piece)
      simp [BatchTextOptimizer.splitSentRe, hc, hrec]

theorem c2Text_noWS : ∀ c ∈ c2Text, isWS c = false := by
  intro c hc
  have := List.eq_of_mem_replicate hc
  subst this
  rfl

theorem c2Text_getLast? : c2Text.getLast? = some 'a' := by
  have h : ∀ n : Nat, (List.replicate (n + 1) 'a').getLast? = some 'a' := by
    intro n
    induction n with
    | zero => rfl
    | succ m ih =>
        rw [List.replicate_succ, List.replicate_succ,
          List.getLast?_cons_cons, ← List.replicate_succ]
        exact ih
  exact h 4000

theorem c2Text_length : c2Text.length = 4001 :=
  List.length_replicate 4001 'a'

theorem c2Text_ne_nil : c2Text ≠ [] := by
  intro h
  have h2 := congrArg List.length h
  rw [c2Text_length] at h2
  simp at h2

theorem split_into_sentences_c2 :
    BatchTextOptimizer.split_into_sentences c2Text = [c2Text ++ ['.']] := by
  have hre : BatchTextOptimizer.splitSentRe c2Text [] [] = [c2Text] := by
    have := splitSentRe_noWS c2Text c2Text_noWS []
    simpa using this
  have hstrip : pyStrip c2Text = c2Text := pyStrip_of_noWS c2Text c2Text_noWS
  have hend : endsWithStop c2Text = false := by
    simp only [endsWithStop, c2Text_getLast?]
    rfl
  have hcond : c2Text ≠ [] ∧ endsWithStop c2Text = false :=
    ⟨c2Text_ne_nil, hend⟩
  have hcons : (c2Text ++ ['.'] : Str) ≠ [] := by
    intro h
    exact absurd (List.append_eq_nil.mp h).2 (by simp)
  rw [BatchTextOptimizer.split_into_sentences, hre]
  rw [List.foldr_cons, List.foldr_nil]
  simp only [hstrip]
  rw [if_pos hcond, if_pos hcons]

theorem packSentences_single (s : Str) (chunks : List Str) :
    BatchTextOptimizer.packSentences [s] chunks [] 0 =
      (chunks, [s], 0 + s.length + 1) := by
  simp [BatchTextOptimizer.packSentences]

theorem splitTextLoop_single_over (para q : Str) (t : Nat)
    (h : para.length > 4000)
    (hp : BatchTextOptimizer.packSentences
      (BatchTextOptimizer.split_into_sentences para) [] [] 0 =
      ([], [q], t)) :
    BatchTextOptimizer.splitTextLoop [para] [] [] 0 = [q] := by
  simp [BatchTextOptimizer.splitTextLoop, h, hp, List.intercalate]

theorem split_text_c2 :
    BatchTextOptimizer.split_text c2Text = [c2Text ++ ['.']] := by
  have hnl : ∀ c ∈ c2Text, c ≠ '\n' := by
    intro c hc
    have := List.eq_of_mem_replicate hc
    subst this
    decide
  have hparas : ((splitOn2NL c2Text []).map pyStrip).filter
      (· ≠ []) = [c2Text] := by
    rw [splitOn2NL_no_newline c2Text hnl []]
    rw [List.reverse_nil, List.nil_append, List.map_cons, List.map_nil,
      pyStrip_of_noWS c2Text c2Text_noWS, List.filter_cons]
    rw [if_pos (by exact decide_eq_true c2Text_ne_nil), List.filter_nil]
  have hover2 : c2Text.length > 4000 := by
    rw [c2Text_length]
    norm_num
  have hpack : BatchTextOptimizer.packSentences
      (BatchTextOptimizer.split_into_sentences c2Text) [] [] 0 =
      ([], [c2Text ++ ['.']], 0 + (c2Text ++ ['.']).length + 1) := by
    rw [split_into_sentences_c2]
    exact packSentences_single (c2Text ++ ['.']) []
  rw [show BatchTextOptimizer.split_text c2Text =
      BatchTextOptimizer.splitTextLoop
        (((splitOn2NL c2Text []).map pyStrip).filter (· ≠ [])) [] [] 0
      from rfl]
  rw [hparas]
  exact splitTextLoop_single_over c2Text (c2Text ++ ['.'])
    (0 + (c2Text ++ ['.']).length + 1) hover2 hpack

/-- C2 counterexample: splitting is not content-preserving modulo
whitespace.  On a 4001-character paragraph with no terminal punctuation,
`_split_into_sentences` appends a `'.'`, so the concatenated chunks
contain a non-whitespace character (`'.'`) that the input does not. -/
theorem c2_roundtrip_counterexample :
    BatchTextOptimizer.split_text c2Text = [c2Text ++ ['.']] ∧
    '.' ∉ nws c2Text ∧
    '.' ∈ nws (List.flatten (BatchTextOptimizer.split_text c2Text)) := by
  refine ⟨split_text_c2, ?_, ?_⟩
  · intro h
    have := List.mem_filter.mp h
    have h2 := List.eq_of_mem_replicate this.1
    cases h2
  · rw [split_text_c2]
    rw [show List.flatten [c2Text ++ ['.']] = c2Text ++ ['.'] by
      rw [List.flatten_cons, List.flatten_nil, List.append_nil]]
    refine List.mem_filter.mpr ⟨?_, by decide⟩
    simp

/- ------------------------------------------------------------------
   Text splitting, from src/eleven_audiobooks/audio_generator.py
   ------------------------------------------------------------------ -/

namespace AudioGenerator

/-- `AudioGenerator.MAX_CHUNK_SIZE` (the source value; the splitter
below takes the size as a parameter, standing for
`self.MAX_CHUNK_SIZE`). -/
def MAX_CHUNK_SIZE : Nat := 4000

/-- The sentence scanner of `AudioGenerator._split_text`: append each
character to `current_sentence` (accumulated here in reverse); after a
`.`, `?` or `!` with non-blank accumulated text, emit the stripped
sentence and restart; a non-blank remainder is a final sentence. -/
def scanSentences : Str → Str → List Str
  | [], cur =>
      if pyStrip cur.reverse ≠ [] then [pyStrip cur.reverse] else []
  | c :: rest, cur =>
      if (c = '.' ∨ c = '?' ∨ c = '!') ∧ pyStrip (c :: cur).reverse ≠ [] then
        pyStrip (c :: cur).reverse :: scanSentences rest []
      else scanSentences rest (c :: cur)

/-- Python `current_chunk.endswith(" ")`. -/
def endsWithSpace (s : Str) : Bool := s.getLast? == some ' '

/-- The word-packing loop of `AudioGenerator._split_text` for a sentence
longer than the budget: flush `sub_chunk` when the word plus one
separator would exceed `maxSize`, else append the word
(`sub_chunk += (" " + word) if sub_chunk else word`). -/
def packWords (maxSize : Nat) : List Str → List Str → Str → List Str × Str
  | [], chunks, sub => (chunks, sub)
  | w :: ws, chunks, sub =>
      if sub.length + w.length + 1 > maxSize then
        packWords maxSize ws (chunks ++ [sub]) w
      else
        packWords maxSize ws chunks
          (if sub = [] then w else sub ++ [' '] ++ w)

/-- The sentence-packing loop of `AudioGenerator._split_text`: when the
sentence no longer fits, flush `current_chunk`; an over-long sentence is
word-split, and its trailing `sub_chunk` becomes the new
`current_chunk`; otherwise append the sentence with a separating
space. -/
def packSentencesA (maxSize : Nat) :
    List Str → List Str → Str → List Str × Str
  | [], chunks, cur => (chunks, cur)
  | s :: rest, chunks, cur =>
      if cur.length + s.length > maxSize then
        if s.length > maxSize then
          packSentencesA maxSize rest
            (packWords maxSize (pySplitWS s [])
              (if cur ≠ [] then chunks ++ [cur] else chunks) []).1
            (packWords maxSize (pySplitWS s [])
              (if cur ≠ [] then chunks ++ [cur] else chunks) []).2
        else
          packSentencesA maxSize rest
            (if cur ≠ [] then chunks ++ [cur] else chunks) s
      else
        packSentencesA maxSize rest chunks
          (cur ++ (if cur ≠ [] ∧ endsWithSpace cur = false
            then [' '] else []) ++ s)

/-- `AudioGenerator._split_text`: sentence scan followed by greedy
packing; a non-empty trailing `current_chunk` becomes the final
chunk. -/
def split_text (maxSize : Nat) (text : Str) : List Str :=
  let sentences := scanSentences text []
  let r := packSentencesA maxSize sentences [] []
  if r.2 ≠ [] then r.1 ++ [r.2] else r.1

end AudioGenerator

/- ----------------------------- C1 ----------------------------- -/

/-- C1 counterexample: with budget `B = 6` and input `"ab. cd."`, the
audio splitter produces the single chunk `"ab. cd."` of length `7 > 6`,
which contains a space — a multi-word chunk over the budget, not the
permitted single over-long word.  (The packer tests
`len(current_chunk) + len(sentence) > max` but then inserts a separator
space as well, so a packed chunk can exceed the budget by one.) -/
theorem c1_budget_counterexample :
    AudioGenerator.split_text 6 ("ab. cd.").toList = [("ab. cd.").toList] ∧
    ("ab. cd.").toList.length = 7 ∧
    (' ' ∈ ("ab. cd.").toList) := by
  exact ⟨by decide, by decide, by decide⟩

/- ------------------------------------------------------------------
   Non-whitespace content lemmas for the audio splitter (C1, C2)
   ------------------------------------------------------------------ -/

theorem nws_nil : nws [] = [] := rfl

theorem nws_space : nws [' '] = [] := rfl

theorem nws_space_cons (l : Str) : nws (' ' :: l) = nws l := by
  have h : isWS ' ' = true := rfl
  simp [nws, List.filter_cons, h]

theorem nws_append (a b : Str) : nws (a ++ b) = nws a ++ nws b :=
  List.filter_append ..

theorem nws_reverse (s : Str) : nws s.reverse = (nws s).reverse :=
  List.filter_reverse ..

theorem nws_cons (c : Char) (l : Str) : nws (c :: l) = nws [c] ++ nws l := by
  cases h : isWS c <;> simp [nws, List.filter_cons, h]

theorem nws_dropWhile_isWS (s : Str) : nws (s.dropWhile isWS) = nws s := by
  induction s with
  | nil => rfl
  | cons c rest ih =>
      by_cases h : isWS c = true
      · have hc : nws (c :: rest) = nws rest := by
          simp [nws, List.filter_cons, h]
        rw [List.dropWhile_cons, if_pos h, ih, hc]
      · rw [List.dropWhile_cons, if_neg h]

theorem nws_pyStrip (s : Str) : nws (pyStrip s) = nws s := by
  rw [pyStrip, nws_reverse, nws_dropWhile_isWS, nws_reverse,
    List.reverse_reverse, nws_dropWhile_isWS]

theorem nws_eq_nil_of_pyStrip_eq_nil (s : Str) (h : pyStrip s = []) :
    nws s = [] := by
  rw [← nws_pyStrip, h, nws_nil]

theorem scanSentences_nws (s : Str) :
    ∀ cur, nws (List.flatten (AudioGenerator.scanSentences s cur)) =
      nws cur.reverse ++ nws s := by
  induction s with
  | nil =>
      intro cur
      by_cases h : pyStrip cur.reverse = []
      · rw [AudioGenerator.scanSentences, if_neg (by simpa using h)]
        simp [nws_eq_nil_of_pyStrip_eq_nil _ h, nws_nil]
      · rw [AudioGenerator.scanSentences, if_pos (by simpa using h)]
        simp [nws_pyStrip, nws_nil]
  | cons c rest ih =>
      intro cur
      by_cases h : (c = '.' ∨ c = '?' ∨ c = '!') ∧
          pyStrip (c :: cur).reverse ≠ []
      · rw [AudioGenerator.scanSentences, if_pos h, List.flatten_cons,
          nws_append, nws_pyStrip, ih []]
        rw [List.reverse_cons, nws_append]
        rw [show nws (c :: rest) = nws [c] ++ nws rest from nws_cons c rest]
        simp [nws_nil, List.append_assoc]
      · rw [AudioGenerator.scanSentences, if_neg h, ih (c :: cur)]
        rw [List.reverse_cons, nws_append]
        rw [show nws (c :: rest) = nws [c] ++ nws rest from nws_cons c rest]
        simp [List.append_assoc]

theorem pySplitWS_nws (s : Str) :
    ∀ acc, nws (List.flatten (pySplitWS s acc)) =
      nws acc.reverse ++ nws s := by
  induction s with
  | nil =>
      intro acc
      by_cases h : acc = []
      · subst h
        simp [pySplitWS, nws_nil]
      · rw [pySplitWS, if_pos (by simpa using h)]
        simp [nws_nil]
  | cons c rest ih =>
      intro acc
      have hstep : nws (c :: rest) = nws [c] ++ nws rest := nws_cons c rest
      by_cases hw : isWS c = true
      · have hc : nws [c] = [] := by simp [nws, List.filter_cons, hw]
        by_cases h : acc = []
        · subst h
          rw [pySplitWS, if_pos hw, if_neg (by simp), ih [], hstep, hc]
          simp [nws_nil]
        · rw [pySplitWS, if_pos hw, if_pos (by simpa using h),
            List.flatten_cons, nws_append, ih [], hstep, hc]
          simp [nws_nil]
      · have hwb : isWS c = false := by
          cases hx : isWS c
          · rfl
          · exact absurd hx hw
        rw [pySplitWS, if_neg (by simp [hwb]), ih (c :: acc),
          List.reverse_cons, nws_append, hstep]
        simp [List.append_assoc]

theorem pySplitWS_noWS (s : Str) :
    ∀ acc, (∀ c ∈ acc, isWS c = false) →
      ∀ w ∈ pySplitWS s acc, ∀ c ∈ w, isWS c = false := by
  induction s with
  | nil =>
      intro acc hacc w hw
      by_cases h : acc = []
      · subst h
        simp [pySplitWS] at hw
      · rw [pySplitWS, if_pos (by simpa using h)] at hw
        rcases List.mem_singleton.mp hw with rfl
        intro c hc
        exact hacc c (List.mem_reverse.mp hc)
  | cons c rest ih =>
      intro acc hacc w hw
      by_cases hws : isWS c = true
      · by_cases h : acc = []
        · subst h
          rw [pySplitWS, if_pos hws, if_neg (by simp)] at hw
          exact ih [] (by intro x hx; cases hx) w hw
        · rw [pySplitWS, if_pos hws, if_pos (by simpa using h)] at hw
          rcases List.mem_cons.mp hw with rfl | hw2
          · intro x hx
            exact hacc x (List.mem_reverse.mp hx)
          · exact ih [] (by intro x hx; cases hx) w hw2
      · have hwb : isWS c = false := by
          cases hx : isWS c
          · rfl
          · exact absurd hx hws
        rw [pySplitWS, if_neg (by simp [hwb])] at hw
        refine ih (c :: acc) ?_ w hw
        intro x hx
        rcases List.mem_cons.mp hx with rfl | hx2
        · exact hwb
        · exact hacc x hx2

theorem packWords_nws (maxSize : Nat) (words : List Str) :
    ∀ chunks sub,
      nws (List.flatten (AudioGenerator.packWords maxSize words chunks sub).1
        ++ (AudioGenerator.packWords maxSize words chunks sub).2) =
      nws (List.flatten chunks ++ sub) ++ nws (List.flatten words) := by
  induction words with
  | nil =>
      intro chunks sub
      simp [AudioGenerator.packWords, nws_nil]
  | cons w ws ih =>
      intro chunks sub
      by_cases h : sub.length + w.length + 1 > maxSize
      · rw [AudioGenerator.packWords, if_pos h, ih (chunks ++ [sub]) w]
        simp [nws_append, List.append_assoc]
      · rw [AudioGenerator.packWords, if_neg h]
        by_cases hs : sub = []
        · rw [if_pos hs, ih chunks w, hs]
          simp [nws_append, nws_nil, List.append_assoc]
        · rw [if_neg hs, ih chunks (sub ++ [' '] ++ w)]
          simp [nws_append, nws_space_cons, List.append_assoc]

theorem packWords_bound (maxSize : Nat) (words : List Str) :
    ∀ chunks sub,
      (∀ w ∈ words, ∀ c ∈ w, isWS c = false) →
      (sub.length ≤ maxSize ∨ ∀ c ∈ sub, isWS c = false) →
      (∀ ch ∈ (AudioGenerator.packWords maxSize words chunks sub).1,
        ch ∈ chunks ∨ ch.length ≤ maxSize ∨ ∀ c ∈ ch, isWS c = false) ∧
      ((AudioGenerator.packWords maxSize words chunks sub).2.length ≤ maxSize
        ∨ ∀ c ∈ (AudioGenerator.packWords maxSize words chunks sub).2,
            isWS c = false) := by
  induction words with
  | nil =>
      intro chunks sub _ hsub
      rw [AudioGenerator.packWords]
      exact ⟨fun ch hch => Or.inl hch, hsub⟩
  | cons w ws ih =>
      intro chunks sub hws hsub
      have hwormw : ∀ c ∈ w, isWS c = false :=
        hws w (List.mem_cons_self w ws)
      have hrest : ∀ x ∈ ws, ∀ c ∈ x, isWS c = false :=
        fun x hx => hws x (List.mem_cons_of_mem w hx)
      by_cases h : sub.length + w.length + 1 > maxSize
      · rw [AudioGenerator.packWords, if_pos h]
        have := ih (chunks ++ [sub]) w hrest (Or.inr hwormw)
        refine ⟨fun ch hch => ?_, this.2⟩
        rcases this.1 ch hch with hin | hok
        · rcases List.mem_append.mp hin with hin2 | hin2
          · exact Or.inl hin2
          · rcases List.mem_singleton.mp hin2 with rfl
            exact Or.inr hsub
        · exact Or.inr hok
      · rw [AudioGenerator.packWords, if_neg h]
        by_cases hs : sub = []
        · rw [if_pos hs]
          exact ih chunks w hrest (Or.inr hwormw)
        · rw [if_neg hs]
          refine ih chunks (sub ++ [' '] ++ w) hrest (Or.inl ?_)
          have hlen : sub.length + w.length + 1 ≤ maxSize :=
            Nat.le_of_not_lt h
          simp only [List.length_append, List.length_singleton]
          omega

theorem packSentencesA_nws (maxSize : Nat) (sents : List Str) :
    ∀ chunks cur,
      nws (List.flatten
          (AudioGenerator.packSentencesA maxSize sents chunks cur).1
        ++ (AudioGenerator.packSentencesA maxSize sents chunks cur).2) =
      nws (List.flatten chunks ++ cur) ++ nws (List.flatten sents) := by
  induction sents with
  | nil =>
      intro chunks cur
      simp [AudioGenerator.packSentencesA, nws_nil]
  | cons s rest ih =>
      intro chunks cur
      have hflush2 : nws (List.flatten
          (if cur = [] then chunks else chunks ++ [cur])) =
          nws (List.flatten chunks) ++ nws cur := by
        by_cases hcne : cur = []
        · rw [if_pos hcne, hcne]
          simp [nws_nil]
        · rw [if_neg hcne]
          simp [nws_append]
      by_cases hbig : cur.length + s.length > maxSize
      · rw [AudioGenerator.packSentencesA, if_pos hbig]
        by_cases hlong : s.length > maxSize
        · rw [if_pos hlong, ih, packWords_nws, pySplitWS_nws]
          simp [nws_append, hflush2, nws_nil, List.append_assoc]
        · rw [if_neg hlong, ih]
          simp [nws_append, hflush2, List.append_assoc]
      · rw [AudioGenerator.packSentencesA, if_neg hbig, ih]
        by_cases hc : cur ≠ [] ∧ AudioGenerator.endsWithSpace cur = false
        · rw [if_pos hc]
          simp [nws_append, nws_space_cons, List.append_assoc]
        · rw [if_neg hc]
          simp [nws_append, nws_nil, List.append_assoc]

theorem packSentencesA_bound (maxSize : Nat) (sents : List Str) :
    ∀ chunks cur,
      (cur.length ≤ maxSize + 1 ∨ ∀ c ∈ cur, isWS c = false) →
      (∀ ch ∈ chunks,
        ch.length ≤ maxSize + 1 ∨ ∀ c ∈ ch, isWS c = false) →
      (∀ ch ∈ (AudioGenerator.packSentencesA maxSize sents chunks cur).1,
        ch.length ≤ maxSize + 1 ∨ ∀ c ∈ ch, isWS c = false) ∧
      ((AudioGenerator.packSentencesA maxSize sents chunks cur).2.length
          ≤ maxSize + 1 ∨
        ∀ c ∈ (AudioGenerator.packSentencesA maxSize sents chunks cur).2,
          isWS c = false) := by
  induction sents with
  | nil =>
      intro chunks cur hcur hchunks
      rw [AudioGenerator.packSentencesA]
      exact ⟨hchunks, hcur⟩
  | cons s rest ih =>
      intro chunks cur hcur hchunks
      have hflush : ∀ ch ∈ (if cur ≠ [] then chunks ++ [cur] else chunks),
          ch.length ≤ maxSize + 1 ∨ ∀ c ∈ ch, isWS c = false := by
        intro ch hch
        by_cases hc : cur ≠ []
        · rw [if_pos hc] at hch
          rcases List.mem_append.mp hch with h2 | h2
          · exact hchunks ch h2
          · rcases List.mem_singleton.mp h2 with rfl
            exact hcur
        · rw [if_neg hc] at hch
          exact hchunks ch hch
      by_cases hbig : cur.length + s.length > maxSize
      · rw [AudioGenerator.packSentencesA, if_pos hbig]
        by_cases hlong : s.length > maxSize
        · rw [if_pos hlong]
          have hpw := packWords_bound maxSize (pySplitWS s [])
            (if cur ≠ [] then chunks ++ [cur] else chunks) []
            (pySplitWS_noWS s [] (by intro x hx; cases hx))
            (Or.inl (Nat.zero_le _))
          refine ih _ _ ?_ ?_
          · rcases hpw.2 with h2 | h2
            · exact Or.inl (Nat.le_succ_of_le h2)
            · exact Or.inr h2
          · intro ch hch
            rcases hpw.1 ch hch with h2 | h2
            · exact hflush ch h2
            · rcases h2 with h3 | h3
              · exact Or.inl (Nat.le_succ_of_le h3)
              · exact Or.inr h3
        · rw [if_neg hlong]
          exact ih _ s (Or.inl (Nat.le_succ_of_le (Nat.le_of_not_lt hlong)))
            hflush
      · rw [AudioGenerator.packSentencesA, if_neg hbig]
        refine ih chunks _ (Or.inl ?_) hchunks
        have hfit : cur.length + s.length ≤ maxSize := Nat.le_of_not_lt hbig
        by_cases hc : cur ≠ [] ∧ AudioGenerator.endsWithSpace cur = false
        · rw [if_pos hc]
          simp only [List.length_append, List.length_singleton]
          omega
        · rw [if_neg hc]
          simp only [List.length_append, List.length_nil]
          omega

/-- C1 amended: every chunk produced by the audio splitter either has
length at most `maxSize + 1` (the greedy packer checks
`len(current_chunk) + len(sentence) > max` before inserting a one
character separator, so a packed chunk can exceed the budget by exactly
one) or contains no whitespace at all — it is a fragment of a single
word, emitted whole even when longer than the budget.  (The
paragraph-level splitter of batch_text_optimizer.py offers no word-level
guarantee at all: an over-long single sentence is emitted whole.) -/
theorem audio_split_budget (maxSize : Nat) (text chunk : Str)
    (h : chunk ∈ AudioGenerator.split_text maxSize text) :
    chunk.length ≤ maxSize + 1 ∨ ∀ c ∈ chunk, isWS c = false := by
  have hb := packSentencesA_bound maxSize
    (AudioGenerator.scanSentences text []) [] []
    (Or.inl (by simp)) (by intro ch hch; cases hch)
  simp only [AudioGenerator.split_text] at h
  by_cases hr : (AudioGenerator.packSentencesA maxSize
      (AudioGenerator.scanSentences text []) [] []).2 ≠ []
  · rw [if_pos hr] at h
    rcases List.mem_append.mp h with h2 | h2
    · exact hb.1 chunk h2
    · rcases List.mem_singleton.mp h2 with rfl
      exact hb.2
  · rw [if_neg hr] at h
    exact hb.1 chunk h

/-- Witness for C1's amended bound at the counterexample input: the
over-budget chunk `"ab. cd."` of `split_text 6 "ab. cd."` satisfies the
amended bound `≤ 6 + 1`. -/
theorem audio_split_budget_witness :
    ("ab. cd.").toList.length ≤ 6 + 1 ∨
      ∀ c ∈ ("ab. cd.").toList, isWS c = false :=
  audio_split_budget 6 ("ab. cd.").toList ("ab. cd.").toList (by decide)

/-- C2 amended: for the audio-generator splitter the round-trip law does
hold: concatenating all chunks in order preserves exactly the sequence
of non-whitespace characters of the input (whitespace is normalized at
sentence and word boundaries).  For the batch-optimizer splitter the law
fails only because `_split_into_sentences` appends a terminating `'.'`
to a sentence that does not end in `.`, `!` or `?` (the
counterexample). -/
theorem audio_split_roundtrip (maxSize : Nat) (text : Str) :
    nws (List.flatten (AudioGenerator.split_text maxSize text)) =
      nws text := by
  have hpack : nws (List.flatten
      (AudioGenerator.packSentencesA maxSize
        (AudioGenerator.scanSentences text []) [] []).1
      ++ (AudioGenerator.packSentencesA maxSize
        (AudioGenerator.scanSentences text []) [] []).2) =
      nws (List.flatten (AudioGenerator.scanSentences text [])) := by
    rw [packSentencesA_nws maxSize (AudioGenerator.scanSentences text []) [] []]
    simp [nws_nil]
  have hscan : nws (List.flatten (AudioGenerator.scanSentences text [])) =
      nws text := by
    rw [scanSentences_nws text []]
    simp [nws_nil]
  simp only [AudioGenerator.split_text]
  by_cases hr : (AudioGenerator.packSentencesA maxSize
      (AudioGenerator.scanSentences text []) [] []).2 ≠ []
  · rw [if_pos hr, List.flatten_append, List.flatten_cons, List.flatten_nil,
      List.append_nil, hpack, hscan]
  · rw [if_neg hr]
    have hr2 : (AudioGenerator.packSentencesA maxSize
        (AudioGenerator.scanSentences text []) [] []).2 = [] := by
      by_contra hx
      exact hr hx
    rw [hr2, List.append_nil] at hpack
    rw [hpack, hscan]

/- ------------------------------------------------------------------
   Batch job coordination, from src/batch_text_reader.py and
   src/batch_text_optimizer.py (the top-level batch draft)
   ------------------------------------------------------------------ -/

namespace BatchReader

/-- The relevant fields of the batch status object returned by
`client.beta.messages.batches.retrieve` in
`BatchTextReader.get_batch_results`. -/
structure BatchStatus where
  processing_status : String
  results_url : Option String
  deriving Repr, DecidableEq

/-- One parsed JSONL record of the downloaded result set:
`r["custom_id"]`, `r["message"]["content"][0]["text"]`,
`r.get("error")`. -/
structure RawRecord where
  custom_id : String
  text : String
  error : Option String
  deriving Repr, DecidableEq

/-- The `BatchResult` dataclass of src/batch_text_reader.py. -/
structure BatchResult where
  custom_id : String
  content : String
  error : Option String
  deriving Repr, DecidableEq

/-- Python truthiness of `status.results_url` (an optional string). -/
def urlTruthy : Option String → Bool
  | some u => u ≠ ""
  | none => false

/-- `BatchTextReader.get_batch_results`, success path: when the batch has
ended and a results URL is present, map the downloaded records into
`BatchResult`s; otherwise log a warning and return the empty list.  (The
source's `except` clause only re-raises network errors; `downloaded`
models the successfully downloaded record set.) -/
def get_batch_results (status : BatchStatus) (downloaded : List RawRecord) :
    List BatchResult :=
  if status.processing_status = "ended" ∧ urlTruthy status.results_url = true
  then
    downloaded.map (fun r =>
      { custom_id := r.custom_id, content := r.text, error := r.error })
  else []

end BatchReader

namespace BatchJobCoordinator

/-- The paragraph loop of `BatchTextOptimizer._split_into_chunks` of the
top-level src/batch_text_optimizer.py: flush when the paragraph would
exceed `max_chunk_size` and the accumulator is non-empty, then append
the paragraph unconditionally (`current_size` counts bare paragraph
lengths). -/
def chunkLoop (max_chunk_size : Nat) :
    List Str → List Str → List Str → Nat → List Str
  | [], chunks, cur, _ =>
      if cur ≠ [] then chunks ++ [List.intercalate ['\n', '\n'] cur]
      else chunks
  | para :: rest, chunks, cur, csize =>
      if csize + para.length > max_chunk_size ∧ cur ≠ [] then
        chunkLoop max_chunk_size rest
          (chunks ++ [List.intercalate ['\n', '\n'] cur]) [para] para.length
      else
        chunkLoop max_chunk_size rest chunks (cur ++ [para])
          (csize + para.length)

/-- `BatchTextOptimizer._split_into_chunks` of the top-level
src/batch_text_optimizer.py (default `max_chunk_size = 4000`). -/
def split_into_chunks (content : Str) (max_chunk_size : Nat) : List Str :=
  chunkLoop max_chunk_size
    (((splitOn2NL content []).map pyStrip).filter (· ≠ [])) [] [] 0

/-- Python `f"{i:03d}"`: decimal digits left-padded with zeros to width
three. -/
def pad3 (i : Nat) : String :=
  let s := toString i
  if s.length < 3 then String.mk (List.replicate (3 - s.length) '0') ++ s
  else s

/-- The custom id `f"{chapter_path.stem}_chunk_{i:03d}"` assigned to the
i-th submitted chunk. -/
def customId (stem : String) (i : Nat) : String :=
  stem ++ "_chunk_" ++ pad3 i

/-- Split a character list at underscores (Python `s.split('_')`). -/
def splitOnUnderscore : Str → Str → List Str
  | [], acc => [acc.reverse]
  | c :: rest, acc =>
      if c = '_' then acc.reverse :: splitOnUnderscore rest []
      else splitOnUnderscore rest (c :: acc)

/-- Decimal digit parsing for `int(...)` on the digit strings produced
by `pad3`. -/
def parseNatDigits : Str → Nat → Nat
  | [], acc => acc
  | c :: rest, acc => parseNatDigits rest (acc * 10 + (c.toNat - '0'.toNat))

/-- `int(x.custom_id.split('_')[-1])`: the sequence index encoded in a
custom id. -/
def sortKeyOfCustomId (cid : String) : Nat :=
  parseNatDigits ((splitOnUnderscore cid.toList []).getLast?.getD []) 0

/-- Stable insertion of one result into a key-sorted list: an element is
placed after every element whose key is not greater, matching Python's
stable `sorted`. -/
def insertByKey (key : BatchReader.BatchResult → Nat)
    (r : BatchReader.BatchResult) :
    List BatchReader.BatchResult → List BatchReader.BatchResult
  | [] => [r]
  | x :: xs =>
      if key r < key x then r :: x :: xs else x :: insertByKey key r xs

/-- `sorted(results, key=...)` as a stable insertion sort. -/
def sortByKey (key : BatchReader.BatchResult → Nat)
    (l : List BatchReader.BatchResult) : List BatchReader.BatchResult :=
  l.foldl (fun acc r => insertByKey key r acc) []

/-- `BATCH_SIZE = 50` of `optimize_chapter`. -/
def BATCH_SIZE : Nat := 50

/-- The external service's response for one sub-batch: the status object
returned by polling plus the downloaded record set. -/
structure BatchFetch where
  status : BatchReader.BatchStatus
  records : List BatchReader.RawRecord
  deriving Repr

/-- The `for i in range(0, len(requests), BATCH_SIZE)` loop of
`optimize_chapter`: submit each sub-batch and extend `results` with
whatever `get_batch_results` returns for it, in sub-batch order. -/
def collectBatches (fetch : Nat → BatchFetch) : Nat →
    List BatchReader.BatchResult
  | 0 => []
  | k + 1 =>
      collectBatches fetch k ++
        BatchReader.get_batch_results (fetch k).status (fetch k).records

/-- The observable content assembly of `optimize_chapter` of the
top-level src/batch_text_optimizer.py: split into chunks, submit in
sub-batches of 50, collect whatever results come back, sort them by the
index parsed from the custom id, and join the non-empty contents with a
blank line.  No step compares the number of results with the number of
submitted chunks, and a non-ended batch contributes no results and no
error. -/
def optimize_chapter_content (stem : String) (content : Str)
    (fetch : Nat → BatchFetch) : String :=
  let chunks := split_into_chunks content 4000
  let numBatches := (chunks.length + BATCH_SIZE - 1) / BATCH_SIZE
  let results := collectBatches fetch numBatches
  let sorted := sortByKey (fun r => sortKeyOfCustomId r.custom_id) results
  String.intercalate "\n\n"
    (sorted.filterMap (fun r => if r.content ≠ "" then some r.content
      else none))

end BatchJobCoordinator

/- ----------------------------- C4 ----------------------------- -/

/-- A batch service whose job never reaches the "ended" state: every
poll reports it in progress with no results URL. -/
def pendingFetch : Nat → BatchJobCoordinator.BatchFetch := fun _ =>
  { status := { processing_status := "in_progress", results_url := none },
    records := [] }

/-- C4 counterexample: a missing result is not a completeness failure.
For the input `"Hello"` exactly one chunk is submitted, the batch never
ends, `get_batch_results` returns the empty list (no error), and
`optimize_chapter` succeeds with empty assembled content instead of
failing with an error describing the missing count. -/
theorem c4_completeness_counterexample :
    (BatchJobCoordinator.split_into_chunks ("Hello").toList 4000).length = 1
      ∧
    BatchReader.get_batch_results
      { processing_status := "in_progress", results_url := none } [] = [] ∧
    BatchJobCoordinator.optimize_chapter_content "ch" ("Hello").toList
      pendingFetch = "" := by
  exact ⟨rfl, rfl, rfl⟩

theorem collectBatches_not_ended
    (fetch : Nat → BatchJobCoordinator.BatchFetch)
    (h : ∀ k, (fetch k).status.processing_status ≠ "ended") :
    ∀ n, BatchJobCoordinator.collectBatches fetch n = [] := by
  intro n
  induction n with
  | zero => rfl
  | succ k ih =>
      rw [BatchJobCoordinator.collectBatches, ih,
        BatchReader.get_batch_results, if_neg (fun hand => h k hand.1)]
      rfl

/-- C4 amended: missing results are not detected.  When a batch job has
not ended, `get_batch_results` returns the empty list after logging a
warning (no error), and `optimize_chapter` assembles its output from
only the results that are present — for a job that never ends it
produces empty content successfully, whatever was submitted; no error
describing a missing count exists anywhere on this path. -/
theorem batch_missing_results_silent :
    (∀ (status : BatchReader.BatchStatus)
        (records : List BatchReader.RawRecord),
      status.processing_status ≠ "ended" →
      BatchReader.get_batch_results status records = []) ∧
    (∀ (stem : String) (content : Str)
        (fetch : Nat → BatchJobCoordinator.BatchFetch),
      (∀ k, (fetch k).status.processing_status ≠ "ended") →
      BatchJobCoordinator.optimize_chapter_content stem content fetch
        = "") := by
  constructor
  · intro status records h
    rw [BatchReader.get_batch_results, if_neg (fun hand => h hand.1)]
  · intro stem content fetch h
    simp only [BatchJobCoordinator.optimize_chapter_content]
    rw [collectBatches_not_ended fetch h]
    rfl

/-- Witness for C4's amended claim on the concrete never-ending
service. -/
theorem batch_missing_results_silent_witness :
    BatchReader.get_batch_results
      { processing_status := "in_progress", results_url := none } [] = [] ∧
    BatchJobCoordinator.optimize_chapter_content "ch" ("Hello").toList
      pendingFetch = "" := by
  refine ⟨batch_missing_results_silent.1
    { processing_status := "in_progress", results_url := none } []
    (by decide), ?_⟩
  have hp : ∀ k, (pendingFetch k).status.processing_status ≠ "ended" := by
    intro k
    simp [pendingFetch]
  exact batch_missing_results_silent.2 "ch" ("Hello").toList pendingFetch hp

/- ------------------------------------------------------------------
   Pipeline orchestration, from src/eleven_audiobooks/pipeline_manager.py
   ------------------------------------------------------------------ -/

namespace PipelineManager

/-- The behaviour of the external collaborators during one run: each
field is the outcome of the corresponding external call (mkdir, PDF
extraction, translation, per-chapter optimization and synthesis,
database inserts, URL resolution).  An `error e` models the call
raising an exception with message `e`. -/
structure Collab where
  setup : Except String Unit
  pdf : Except String (List (Int × Str))
  translated : Except String (List (Int × Str))
  insertOriginal : Except String Unit
  insertTranslated : Except String Unit
  optimizeResult : Int → Except String Unit
  audioResult : Nat → Except String Unit
  storeAudio : Nat → Except String Unit
  getUrl : Except String (Option String)

/-- `StorageEngine.store_original` / `store_translated`: validate the
chapters, then perform the database insert (the insert outcome is the
collaborator oracle). -/
def storeChapters (insert : Except String Unit)
    (chapters : List (Int × Str)) : Except String Unit :=
  match StorageEngine.validate_chapters chapters with
  | .error e => .error e
  | .ok _ => insert

/-- `PipelineManager._setup_directories`: record stage INITIALIZED, then
create the four output directories, adding each as an artifact; on an
exception, record the error and re-raise. -/
def setupStage (c : Collab) (ps : PipelineState) :
    PipelineState × Except String Unit :=
  let ps := update_state ps (some .initialized) none none none
  match c.setup with
  | .ok _ =>
      (add_artifact (add_artifact (add_artifact (add_artifact ps
        "dir_chapters" "chapters") "dir_translated" "translated")
        "dir_optimized" "optimized") "dir_audio" "audio", .ok ())
  | .error e => (update_state ps none none none (some e), .error e)

/-- `PipelineManager._process_pdf`: record stage PDF_PROCESSING, extract
the chapters, set `total_chapters` directly (no history entry), save
each chapter as an artifact, store the originals (validation included);
any exception is recorded and re-raised. -/
def processPdfStage (c : Collab) (ps : PipelineState) :
    PipelineState × Except String (List (Int × Str)) :=
  let ps := update_state ps (some .pdf_processing) none none none
  match c.pdf with
  | .error e => (update_state ps none none none (some e), .error e)
  | .ok chapters =>
      let ps := { ps with state :=
        { ps.state with total_chapters := (chapters.length : Int) } }
      let ps := chapters.foldl (fun a p =>
        add_artifact a ("pdf_chapter_" ++ toString p.1)
          ("chapter_" ++ toString p.1 ++ ".txt")) ps
      match storeChapters c.insertOriginal chapters with
      | .error e => (update_state ps none none none (some e), .error e)
      | .ok _ => (ps, .ok chapters)

/-- `PipelineManager._translate_chapters`: record stage TRANSLATION,
translate, save artifacts, store the translation; any exception is
recorded and re-raised. -/
def translateStage (c : Collab) (ps : PipelineState) :
    PipelineState × Except String (List (Int × Str)) :=
  let ps := update_state ps (some .translation) none none none
  match c.translated with
  | .error e => (update_state ps none none none (some e), .error e)
  | .ok translated =>
      let ps := translated.foldl (fun a p =>
        add_artifact a ("translated_chapter_" ++ toString p.1)
          ("chapter_" ++ toString p.1 ++ ".txt")) ps
      match storeChapters c.insertTranslated translated with
      | .error e => (update_state ps none none none (some e), .error e)
      | .ok _ => (ps, .ok translated)

/-- The per-chapter loop of `PipelineManager._optimize_chapters`: record
`current_chapter`, optimize, save the optimized text as an artifact and
collect its path; the first exception is recorded and re-raised. -/
def optimizeLoop (c : Collab) :
    List (Int × Str) → PipelineState → List String →
    PipelineState × Except String (List String)
  | [], ps, paths => (ps, .ok paths)
  | (num, _) :: rest, ps, paths =>
      let ps := update_state ps none (some num) none none
      match c.optimizeResult num with
      | .error e => (update_state ps none none none (some e), .error e)
      | .ok _ =>
          optimizeLoop c rest
            (add_artifact ps ("optimized_chapter_" ++ toString num)
              ("chapter_" ++ toString num ++ ".txt"))
            (paths ++ ["chapter_" ++ toString num ++ ".txt"])

/-- `PipelineManager._optimize_chapters`: record stage OPTIMIZATION and
run the per-chapter loop. -/
def optimizeStage (c : Collab) (ps : PipelineState)
    (chapters : List (Int × Str)) :
    PipelineState × Except String (List String) :=
  optimizeLoop c chapters
    (update_state ps (some .optimization) none none none) []

/-- The `for i, path in enumerate(chapter_paths, 1)` loop of
`PipelineManager._generate_audio`: record `current_chapter = i`,
generate the chapter audio, save it as an artifact, store it; the first
exception is recorded and re-raised.  `n` is the number of remaining
paths. -/
def audioLoop (c : Collab) :
    Nat → Nat → PipelineState → PipelineState × Except String Unit
  | _, 0, ps => (ps, .ok ())
  | i, n + 1, ps =>
      let ps := update_state ps none (some (i : Int)) none none
      match c.audioResult i with
      | .error e => (update_state ps none none none (some e), .error e)
      | .ok _ =>
          let ps := add_artifact ps ("audio_chapter_" ++ toString i)
            ("chapter_" ++ toString i ++ ".mp3")
          match c.storeAudio i with
          | .error e => (update_state ps none none none (some e), .error e)
          | .ok _ => audioLoop c (i + 1) n ps

/-- `PipelineManager._generate_audio`: record stage AUDIO_GENERATION and
run the per-chapter loop from index 1. -/
def audioStage (c : Collab) (ps : PipelineState) (numPaths : Nat) :
    PipelineState × Except String Unit :=
  audioLoop c 1 numPaths
    (update_state ps (some .audio_generation) none none none)

/-- `PipelineManager._handle_failure`: record stage FAILED with the
error, then try to resolve a partial result from the artifact store:
the audiobook URL if that lookup succeeds, `None` if it raises. -/
def handle_failure (c : Collab) (ps : PipelineState) (e : String) :
    Option String × PipelineState :=
  let ps := update_state ps (some .failed) none none (some e)
  match c.getUrl with
  | .ok url => (url, ps)
  | .error _ => (none, ps)

/-- `PipelineManager.process`: run the stages in order; any stage
exception lands in the outer `except`, which answers with
`_handle_failure`; on success record COMPLETED and resolve the final
URL (a failure of that final lookup is also routed to
`_handle_failure`).  A result of `.error` would correspond to an
exception escaping `process()` to the caller. -/
def process (c : Collab) (translate : Bool) :
    Except String (Option String × PipelineState) :=
  let r1 := setupStage c PipelineState.init
  match r1.2 with
  | .error e => .ok (handle_failure c r1.1 e)
  | .ok _ =>
    let r2 := processPdfStage c r1.1
    match r2.2 with
    | .error e => .ok (handle_failure c r2.1 e)
    | .ok chapters =>
      let r3 := if translate then translateStage c r2.1
        else (r2.1, .ok chapters)
      match r3.2 with
      | .error e => .ok (handle_failure c r3.1 e)
      | .ok chapters2 =>
        let r4 := optimizeStage c r3.1 chapters2
        match r4.2 with
        | .error e => .ok (handle_failure c r4.1 e)
        | .ok paths =>
          let r5 := audioStage c r4.1 paths.length
          match r5.2 with
          | .error e => .ok (handle_failure c r5.1 e)
          | .ok _ =>
            let psC := update_state r5.1 (some .completed) none none none
            match c.getUrl with
            | .ok url => .ok (url, psC)
            | .error e => .ok (handle_failure c psC e)

end PipelineManager

/- ----------------------------- C5 ----------------------------- -/

theorem update_state_none_error_eq (ps : PipelineState)
    (stage : Option ProcessingStage) (cc tc : Option Int) :
    (update_state ps stage cc tc none).state.error = ps.state.error := by
  cases stage <;> cases cc <;> cases tc <;> rfl

theorem foldl_add_artifact_error (l : List (Int × Str))
    (f g : Int × Str → String) :
    ∀ ps : PipelineState,
      (l.foldl (fun a p => add_artifact a (f p) (g p)) ps).state.error =
        ps.state.error := by
  induction l with
  | nil => intro ps; rfl
  | cons x xs ih =>
      intro ps
      rw [List.foldl_cons, ih]
      rfl

/-- The outcome discipline of every stage body: either it succeeds and
leaves the recorded error unchanged, or it raises after recording the
error (which forces stage FAILED). -/
def stageInv {α : Type} (ps0 : PipelineState)
    (out : PipelineState × Except String α) : Prop :=
  (out.1.state.error = ps0.state.error ∧ ∃ v, out.2 = .ok v) ∨
  (∃ e, out.2 = .error e ∧ out.1.state.stage = .failed ∧
    out.1.state.error = some e)

theorem stageInv_ok_error {α : Type} (ps0 : PipelineState)
    (out : PipelineState × Except String α) (h : stageInv ps0 out)
    {v : α} (hok : out.2 = .ok v) :
    out.1.state.error = ps0.state.error := by
  rcases h with ⟨ha, _⟩ | ⟨e, he, _, _⟩
  · exact ha
  · rw [hok] at he
    cases he

theorem setupStage_inv (c : PipelineManager.Collab) (ps : PipelineState) :
    stageInv ps (PipelineManager.setupStage c ps) := by
  simp only [PipelineManager.setupStage]
  cases hc : c.setup with
  | ok v => exact Or.inl ⟨rfl, ⟨(), rfl⟩⟩
  | error e => exact Or.inr ⟨e, rfl, rfl, rfl⟩

theorem processPdfStage_inv (c : PipelineManager.Collab)
    (ps : PipelineState) :
    stageInv ps (PipelineManager.processPdfStage c ps) := by
  simp only [PipelineManager.processPdfStage]
  cases hpdf : c.pdf with
  | error e => exact Or.inr ⟨e, rfl, rfl, rfl⟩
  | ok chapters =>
      dsimp only
      cases hst : PipelineManager.storeChapters c.insertOriginal chapters
        with
      | error e => exact Or.inr ⟨e, rfl, rfl, rfl⟩
      | ok _ =>
          refine Or.inl ⟨?_, ⟨chapters, rfl⟩⟩
          rw [foldl_add_artifact_error]
          rfl

theorem translateStage_inv (c : PipelineManager.Collab)
    (ps : PipelineState) :
    stageInv ps (PipelineManager.translateStage c ps) := by
  simp only [PipelineManager.translateStage]
  cases htr : c.translated with
  | error e => exact Or.inr ⟨e, rfl, rfl, rfl⟩
  | ok translated =>
      dsimp only
      cases hst : PipelineManager.storeChapters c.insertTranslated
          translated with
      | error e => exact Or.inr ⟨e, rfl, rfl, rfl⟩
      | ok _ =>
          refine Or.inl ⟨?_, ⟨translated, rfl⟩⟩
          rw [foldl_add_artifact_error]
          rfl

theorem optimizeLoop_inv (c : PipelineManager.Collab)
    (chapters : List (Int × Str)) :
    ∀ ps paths, stageInv ps (PipelineManager.optimizeLoop c chapters ps
      paths) := by
  induction chapters with
  | nil => intro ps paths; exact Or.inl ⟨rfl, ⟨paths, rfl⟩⟩
  | cons x rest ih =>
      intro ps paths
      obtain ⟨num, s⟩ := x
      simp only [PipelineManager.optimizeLoop]
      cases hre : c.optimizeResult num with
      | error e => exact Or.inr ⟨e, rfl, rfl, rfl⟩
      | ok _ => exact ih _ _

theorem audioLoop_inv (c : PipelineManager.Collab) :
    ∀ n i ps, stageInv ps (PipelineManager.audioLoop c i n ps) := by
  intro n
  induction n with
  | zero => intro i ps; exact Or.inl ⟨rfl, ⟨(), rfl⟩⟩
  | succ m ih =>
      intro i ps
      simp only [PipelineManager.audioLoop]
      cases hra : c.audioResult i with
      | error e => exact Or.inr ⟨e, rfl, rfl, rfl⟩
      | ok _ =>
          cases hsa : c.storeAudio i with
          | error e => exact Or.inr ⟨e, rfl, rfl, rfl⟩
          | ok _ => exact ih (i + 1) _

/-- The returned location is either nothing or exactly what the artifact
store reports. -/
def urlFromStore (c : PipelineManager.Collab) (url : Option String) : Prop :=
  url = none ∨ c.getUrl = .ok url

theorem handle_failure_spec (c : PipelineManager.Collab)
    (ps : PipelineState) (e : String) :
    ∃ url, PipelineManager.handle_failure c ps e =
      (url, update_state ps (some .failed) none none (some e)) ∧
      urlFromStore c url := by
  simp only [PipelineManager.handle_failure]
  cases hu : c.getUrl with
  | ok url => exact ⟨url, rfl, Or.inr hu⟩
  | error e2 => exact ⟨none, rfl, Or.inl rfl⟩

/-- C5: for every behaviour of the external collaborators and both
values of the translate flag, `process()` returns normally (never
`.error`, i.e. no exception escapes to the caller), the value returned
is either the audiobook URL reported by the artifact store or `None`,
and whenever an error was recorded in the final pipeline state its
stage is FAILED. -/
theorem process_never_crashes (c : PipelineManager.Collab)
    (translate : Bool) :
    ∃ (url : Option String) (ps : PipelineState),
      PipelineManager.process c translate = .ok (url, ps) ∧
      urlFromStore c url ∧
      (ps.state.error ≠ none → ps.state.stage = .failed) := by
  have hfail : ∀ (psX : PipelineState) (e : String),
      ∃ (url : Option String) (ps : PipelineState),
        (Except.ok (PipelineManager.handle_failure c psX e) :
          Except String (Option String × PipelineState)) = .ok (url, ps) ∧
        urlFromStore c url ∧
        (ps.state.error ≠ none → ps.state.stage = .failed) := by
    intro psX e
    obtain ⟨url, hu, hspec⟩ := handle_failure_spec c psX e
    refine ⟨url, update_state psX (some .failed) none none (some e),
      by rw [hu], hspec, fun _ => rfl⟩
  rcases h1 : (PipelineManager.setupStage c PipelineState.init).2 with e | v1
  · simp only [PipelineManager.process, h1]
    exact hfail _ e
  have herr1 : (PipelineManager.setupStage c
      PipelineState.init).1.state.error = none :=
    stageInv_ok_error _ _ (setupStage_inv c PipelineState.init) h1
  rcases h2 : (PipelineManager.processPdfStage c
      (PipelineManager.setupStage c PipelineState.init).1).2 with e | chs
  · simp only [PipelineManager.process, h1, h2]
    exact hfail _ e
  have herr2 : (PipelineManager.processPdfStage c
      (PipelineManager.setupStage c PipelineState.init).1).1.state.error
      = none :=
    (stageInv_ok_error _ _ (processPdfStage_inv c _) h2).trans herr1
  cases translate with
  | true =>
      rcases h3 : (PipelineManager.translateStage c
          (PipelineManager.processPdfStage c
            (PipelineManager.setupStage c PipelineState.init).1).1).2
          with e | chs2
      · simp only [PipelineManager.process, h1, h2, if_true, h3]
        exact hfail _ e
      have herr3 : (PipelineManager.translateStage c
          (PipelineManager.processPdfStage c
            (PipelineManager.setupStage c
              PipelineState.init).1).1).1.state.error = none :=
        (stageInv_ok_error _ _ (translateStage_inv c _) h3).trans herr2
      rcases h4 : (PipelineManager.optimizeStage c
          (PipelineManager.translateStage c
            (PipelineManager.processPdfStage c
              (PipelineManager.setupStage c PipelineState.init).1).1).1
          chs2).2 with e | paths
      · simp only [PipelineManager.process, h1, h2, if_true, h3, h4]
        exact hfail _ e
      have herr4 : (PipelineManager.optimizeStage c
          (PipelineManager.translateStage c
            (PipelineManager.processPdfStage c
              (PipelineManager.setupStage c PipelineState.init).1).1).1
          chs2).1.state.error = none :=
        (stageInv_ok_error _ _ (optimizeLoop_inv c chs2 _ []) h4).trans
          herr3
      rcases h5 : (PipelineManager.audioStage c
          (PipelineManager.optimizeStage c
            (PipelineManager.translateStage c
              (PipelineManager.processPdfStage c
                (PipelineManager.setupStage c PipelineState.init).1).1).1
            chs2).1 paths.length).2 with e | u5
      · simp only [PipelineManager.process, h1, h2, if_true, h3, h4, h5]
        exact hfail _ e
      have herr5 : (PipelineManager.audioStage c
          (PipelineManager.optimizeStage c
            (PipelineManager.translateStage c
              (PipelineManager.processPdfStage c
                (PipelineManager.setupStage c PipelineState.init).1).1).1
            chs2).1 paths.length).1.state.error = none :=
        (stageInv_ok_error _ _ (audioLoop_inv c paths.length 1 _)
          h5).trans herr4
      cases hu : c.getUrl with
      | error e =>
          simp only [PipelineManager.process, h1, h2, if_true, h3, h4, h5,
            hu]
          exact hfail _ e
      | ok url =>
          simp only [PipelineManager.process, h1, h2, if_true, h3, h4, h5,
            hu]
          refine ⟨url, _, rfl, Or.inr hu, fun hne => ?_⟩
          exact absurd ((update_state_none_error_eq _ _ _ _).trans herr5)
            hne
  | false =>
      have hif : (if false = true then
          PipelineManager.translateStage c
            (PipelineManager.processPdfStage c
              (PipelineManager.setupStage c PipelineState.init).1).1
        else ((PipelineManager.processPdfStage c
              (PipelineManager.setupStage c PipelineState.init).1).1,
            (Except.ok chs : Except String (List (Int × Str))))) =
          ((PipelineManager.processPdfStage c
            (PipelineManager.setupStage c PipelineState.init).1).1,
           (Except.ok chs : Except String (List (Int × Str)))) :=
        if_neg (by decide)
      rcases h4 : (PipelineManager.optimizeStage c
          (PipelineManager.processPdfStage c
            (PipelineManager.setupStage c PipelineState.init).1).1 chs).2
          with e | paths
      · simp only [PipelineManager.process, h1, h2, hif]
        simp only [h4]
        exact hfail _ e
      have herr4 : (PipelineManager.optimizeStage c
          (PipelineManager.processPdfStage c
            (PipelineManager.setupStage c PipelineState.init).1).1
          chs).1.state.error = none :=
        (stageInv_ok_error _ _ (optimizeLoop_inv c chs _ []) h4).trans
          herr2
      rcases h5 : (PipelineManager.audioStage c
          (PipelineManager.optimizeStage c
            (PipelineManager.processPdfStage c
              (PipelineManager.setupStage c PipelineState.init).1).1 chs).1
          paths.length).2 with e | u5
      · simp only [PipelineManager.process, h1, h2, hif]
        simp only [h4, h5]
        exact hfail _ e
      have herr5 : (PipelineManager.audioStage c
          (PipelineManager.optimizeStage c
            (PipelineManager.processPdfStage c
              (PipelineManager.setupStage c PipelineState.init).1).1 chs).1
          paths.length).1.state.error = none :=
        (stageInv_ok_error _ _ (audioLoop_inv c paths.length 1 _)
          h5).trans herr4
      cases hu : c.getUrl with
      | error e =>
          simp only [PipelineManager.process, h1, h2, hif]
          simp only [h4, h5, hu]
          exact hfail _ e
      | ok url =>
          simp only [PipelineManager.process, h1, h2, hif]
          simp only [h4, h5, hu]
          refine ⟨url, _, rfl, Or.inr hu, fun hne => ?_⟩
          exact absurd ((update_state_none_error_eq _ _ _ _).trans herr5)
            hne

/- ------------------------------------------------------------------
   The rate-limited section of _optimize_chunk_with_rate_limit
   (src/eleven_audiobooks/batch_text_optimizer.py), as a small-step
   interleaving model.  Under asyncio, code between two awaits runs
   atomically; the awaits inside the section are the semaphore
   acquisition and the pacing sleep.
   ------------------------------------------------------------------ -/

namespace RateLimiter

/-- `BatchTextOptimizer.MAX_CONCURRENT_REQUESTS`. -/
def MAX_CONCURRENT_REQUESTS : Nat := 3

/-- `BatchTextOptimizer.REQUEST_WAIT_TIME` (seconds). -/
def REQUEST_WAIT_TIME : ℚ := 1

/-- Shared state of the rate-limited section:
`clock` is the current `time.time()`; `last` is
`self.last_request_time` (the watermark, initially `0`); `sem` is the
number of free `asyncio.Semaphore(MAX_CONCURRENT_REQUESTS)` slots;
`waiting` counts tasks that have not yet acquired the semaphore;
`sleeping` holds the wake-up deadlines of tasks suspended in the pacing
sleep; `inflight` counts tasks whose external call has been issued and
has not completed; `issues` records the timestamps of issued calls. -/
structure Config where
  clock : ℚ
  last : ℚ
  sem : Nat
  waiting : Nat
  sleeping : List ℚ
  inflight : Nat
  issues : List ℚ

/-- One scheduler step.  `enterIssue` and `enterSleep` run the section
from the semaphore grant to the pacing check atomically (there is no
await in between); a task that must pace suspends until
`last + REQUEST_WAIT_TIME` WITHOUT updating the watermark, and on
waking (`wake`) it writes the watermark and issues its call without
re-checking the interval — exactly the source's control flow. -/
inductive Step : Config → Config → Prop where
  | advance (g : Config) (t : ℚ) (ht : 0 ≤ t) :
      Step g { g with clock := g.clock + t }
  | enterIssue (g : Config) (hw : 0 < g.waiting) (hs : 0 < g.sem)
      (hpace : REQUEST_WAIT_TIME ≤ g.clock - g.last) :
      Step g
        { g with
          waiting := g.waiting - 1, sem := g.sem - 1,
          last := g.clock, inflight := g.inflight + 1,
          issues := g.issues ++ [g.clock] }
  | enterSleep (g : Config) (hw : 0 < g.waiting) (hs : 0 < g.sem)
      (hpace : g.clock - g.last < REQUEST_WAIT_TIME) :
      Step g
        { g with
          waiting := g.waiting - 1, sem := g.sem - 1,
          sleeping := g.sleeping ++ [g.last + REQUEST_WAIT_TIME] }
  | wake (g : Config) (w : ℚ) (hw : w ∈ g.sleeping) (hc : w ≤ g.clock) :
      Step g
        { g with
          sleeping := g.sleeping.erase w, last := g.clock,
          inflight := g.inflight + 1, issues := g.issues ++ [g.clock] }
  | complete (g : Config) (hf : 0 < g.inflight) :
      Step g { g with inflight := g.inflight - 1, sem := g.sem + 1 }

/-- Reachability under an arbitrary interleaving. -/
inductive Reach : Config → Config → Prop where
  | refl (g : Config) : Reach g g
  | step (g1 g2 g3 : Config) (h1 : Reach g1 g2) (h2 : Step g2 g3) :
      Reach g1 g3

/-- Initial state for `n` chunk tasks: `self.last_request_time = 0`,
full semaphore, nothing issued. -/
def start (n : Nat) : Config :=
  { clock := 0, last := 0, sem := MAX_CONCURRENT_REQUESTS, waiting := n,
    sleeping := [], inflight := 0, issues := [] }

end RateLimiter

/- ----------------------------- C10 ----------------------------- -/

/-- The five intermediate configurations of the counterexample trace:
both tasks enter and sleep at time 0, time advances to 1, both wake and
issue at time 1. -/
def c10a : RateLimiter.Config :=
  { clock := 0, last := 0, sem := 2, waiting := 1, sleeping := [1],
    inflight := 0, issues := [] }

def c10b : RateLimiter.Config :=
  { clock := 0, last := 0, sem := 1, waiting := 0, sleeping := [1, 1],
    inflight := 0, issues := [] }

def c10c : RateLimiter.Config :=
  { clock := 1, last := 0, sem := 1, waiting := 0, sleeping := [1, 1],
    inflight := 0, issues := [] }

def c10d : RateLimiter.Config :=
  { clock := 1, last := 1, sem := 1, waiting := 0, sleeping := [1],
    inflight := 1, issues := [1] }

def c10e : RateLimiter.Config :=
  { clock := 1, last := 1, sem := 1, waiting := 0, sleeping := [],
    inflight := 2, issues := [1, 1] }

/-- C10 counterexample: the pacing guarantee fails.  With two tasks,
both can acquire the semaphore at time 0, both read the watermark `0`,
both suspend until time 1, and on waking both issue their calls at time
1 — two external calls issued `0 < REQUEST_WAIT_TIME` apart, because the
watermark is only written after the pacing sleep, with no re-check. -/
theorem c10_pacing_counterexample :
    RateLimiter.Reach (RateLimiter.start 2) c10e ∧
      c10e.issues = [1, 1] ∧
      (1 : ℚ) - 1 < RateLimiter.REQUEST_WAIT_TIME := by
  have s1 : RateLimiter.Step (RateLimiter.start 2) c10a := by
    have h := RateLimiter.Step.enterSleep (RateLimiter.start 2)
      (by norm_num [RateLimiter.start])
      (by norm_num [RateLimiter.start,
        RateLimiter.MAX_CONCURRENT_REQUESTS])
      (by norm_num [RateLimiter.start, RateLimiter.REQUEST_WAIT_TIME])
    have he : ({ RateLimiter.start 2 with
        waiting := (RateLimiter.start 2).waiting - 1,
        sem := (RateLimiter.start 2).sem - 1,
        sleeping := (RateLimiter.start 2).sleeping ++
          [(RateLimiter.start 2).last + RateLimiter.REQUEST_WAIT_TIME] } :
        RateLimiter.Config) = c10a := by
      norm_num [RateLimiter.start, c10a,
        RateLimiter.MAX_CONCURRENT_REQUESTS, RateLimiter.REQUEST_WAIT_TIME]
    exact he ▸ h
  have s2 : RateLimiter.Step c10a c10b := by
    have h := RateLimiter.Step.enterSleep c10a
      (by norm_num [c10a]) (by norm_num [c10a])
      (by norm_num [c10a, RateLimiter.REQUEST_WAIT_TIME])
    have he : ({ c10a with
        waiting := c10a.waiting - 1,
        sem := c10a.sem - 1,
        sleeping := c10a.sleeping ++
          [c10a.last + RateLimiter.REQUEST_WAIT_TIME] } :
        RateLimiter.Config) = c10b := by
      norm_num [c10a, c10b, RateLimiter.REQUEST_WAIT_TIME]
    exact he ▸ h
  have s3 : RateLimiter.Step c10b c10c := by
    have h := RateLimiter.Step.advance c10b 1 (by norm_num)
    have he : ({ c10b with clock := c10b.clock + 1 } :
        RateLimiter.Config) = c10c := by
      norm_num [c10b, c10c]
    exact he ▸ h
  have s4 : RateLimiter.Step c10c c10d := by
    have h := RateLimiter.Step.wake c10c 1
      (by norm_num [c10c]) (by norm_num [c10c])
    have he : ({ c10c with
        sleeping := c10c.sleeping.erase 1, last := c10c.clock,
        inflight := c10c.inflight + 1,
        issues := c10c.issues ++ [c10c.clock] } :
        RateLimiter.Config) = c10d := by
      norm_num [c10c, c10d, List.erase_cons_head]
    exact he ▸ h
  have s5 : RateLimiter.Step c10d c10e := by
    have h := RateLimiter.Step.wake c10d 1
      (by norm_num [c10d]) (by norm_num [c10d])
    have he : ({ c10d with
        sleeping := c10d.sleeping.erase 1, last := c10d.clock,
        inflight := c10d.inflight + 1,
        issues := c10d.issues ++ [c10d.clock] } :
        RateLimiter.Config) = c10e := by
      norm_num [c10d, c10e, List.erase_cons_head]
    exact he ▸ h
  refine ⟨?_, rfl, by norm_num [RateLimiter.REQUEST_WAIT_TIME]⟩
  exact RateLimiter.Reach.step _ _ _ (RateLimiter.Reach.step _ _ _
    (RateLimiter.Reach.step _ _ _ (RateLimiter.Reach.step _ _ _
      (RateLimiter.Reach.step _ _ _
        (RateLimiter.Reach.refl (RateLimiter.start 2)) s1) s2) s3) s4) s5

/-- C10 amended: the concurrency half of the claim holds — under every
interleaving, at most `MAX_CONCURRENT_REQUESTS` external calls are in
flight, because a semaphore slot is held from acquisition to completion
(invariant: free slots + sleepers + in-flight calls = the semaphore
size).  The pacing half does not hold (see the counterexample): the
watermark is read before the pacing sleep and written after it, so two
workers that both observed a stale watermark can issue closer than
`min_interval`. -/
theorem rate_limiter_inflight_bound (n : Nat) (g : RateLimiter.Config)
    (h : RateLimiter.Reach (RateLimiter.start n) g) :
    g.inflight ≤ RateLimiter.MAX_CONCURRENT_REQUESTS ∧
      g.sem + g.sleeping.length + g.inflight =
        RateLimiter.MAX_CONCURRENT_REQUESTS := by
  induction h with
  | refl => exact ⟨by norm_num [RateLimiter.start], rfl⟩
  | step g2 g3 h1 h2 ih =>
      rcases ih with ⟨ihb, ihe⟩
      cases h2 with
      | advance t ht => exact ⟨ihb, ihe⟩
      | enterIssue hw hs hpace =>
          refine ⟨?_, ?_⟩ <;> dsimp only <;> omega
      | enterSleep hw hs hpace =>
          refine ⟨?_, ?_⟩ <;>
            simp only [List.length_append, List.length_singleton] <;> omega
      | wake w hwm hc =>
          have hlen : (g2.sleeping.erase w).length =
              g2.sleeping.length - 1 :=
            List.length_erase_of_mem hwm
          have hpos : 0 < g2.sleeping.length := List.length_pos_of_mem hwm
          refine ⟨?_, ?_⟩ <;> simp only [hlen] <;> omega
      | complete hf =>
          refine ⟨?_, ?_⟩ <;> dsimp only <;> omega

/-- Witness for C10's amended bound on a concrete reachable
configuration (one scheduler step from the start). -/
theorem rate_limiter_inflight_bound_witness :
    ({ RateLimiter.start 2 with
        clock := (RateLimiter.start 2).clock + 1 } :
      RateLimiter.Config).inflight ≤
      RateLimiter.MAX_CONCURRENT_REQUESTS :=
  (rate_limiter_inflight_bound 2 _
    (RateLimiter.Reach.step _ _ _
      (RateLimiter.Reach.refl (RateLimiter.start 2))
      (RateLimiter.Step.advance (RateLimiter.start 2) 1 (by norm_num)))).1

end ElevenAudiobooks
